import Mathlib

/-!
Verification of the batch conversion pipeline of `heic-converter` (src/app.py).

The pipeline (module-level code of src/app.py, lines 62-148) decodes each
uploaded file with Pillow, normalizes the color mode for the JPG target,
derives the output filename, encodes the image, collects per-item errors,
and zips the successes.  We embed the data model (Pillow images at pixel
level, source items, conversion results) and the pipeline loop, treating
the decoder and encoder libraries as external collaborators (parameters of
the pipeline), exactly as the spec's §6 describes them.
-/

namespace HeicConverter

/-- The output format radio choice (src/app.py:24). -/
inductive OutputFormat
  | PNG
  | JPG
deriving DecidableEq

/-- Pillow color modes relevant to the pipeline: the three modes the JPG
branch singles out (`"RGBA"`, `"LA"`, `"P"`, src/app.py:86) plus the opaque
modes `RGB` and `L` that fall through to the plain `convert("RGB")`. -/
inductive Mode
  | RGB
  | RGBA
  | LA
  | P
  | L
deriving DecidableEq

/-- One pixel of a decoded image, tagged with the shape of its channel data. -/
inductive Pixel
  | rgb (r g b : Nat)
  | rgba (r g b a : Nat)
  | la (l a : Nat)
  | pal (idx : Nat)
  | lum (l : Nat)
deriving DecidableEq

/-- An in-memory Pillow image: declared mode, dimensions, row-major pixel
data, and (for mode `P`) an RGBA palette. -/
structure PILImage where
  mode : Mode
  width : Nat
  height : Nat
  pixels : List Pixel
  palette : List (Nat × Nat × Nat × Nat)
deriving DecidableEq

/-- A pixel's channel data matches the image mode that carries it. -/
def Pixel.matchesMode : Mode → Pixel → Bool
  | .RGB, .rgb _ _ _ => true
  | .RGBA, .rgba _ _ _ _ => true
  | .LA, .la _ _ => true
  | .P, .pal _ => true
  | .L, .lum _ => true
  | _, _ => false

/-- Well-formed image: every pixel matches the declared mode. -/
def PILImage.wf (img : PILImage) : Prop :=
  ∀ p ∈ img.pixels, p.matchesMode img.mode = true

instance (img : PILImage) : Decidable img.wf :=
  inferInstanceAs (Decidable (∀ p ∈ img.pixels, _))

/-- Pillow's `convert("RGB")` per pixel: alpha dropped, luminance and
palette entries expanded to three channels. -/
def pixelToRGB (pal : List (Nat × Nat × Nat × Nat)) : Pixel → Pixel
  | .rgb r g b => .rgb r g b
  | .rgba r g b _ => .rgb r g b
  | .la l _ => .rgb l l l
  | .lum l => .rgb l l l
  | .pal i =>
    match pal[i]? with
    | some (r, g, b, _) => .rgb r g b
    | none => .rgb 0 0 0

/-- Pillow's `convert("RGBA")` per pixel: opaque modes gain alpha 255,
palette entries are looked up with their palette alpha. -/
def pixelToRGBA (pal : List (Nat × Nat × Nat × Nat)) : Pixel → Pixel
  | .rgb r g b => .rgba r g b 255
  | .rgba r g b a => .rgba r g b a
  | .la l a => .rgba l l l a
  | .lum l => .rgba l l l 255
  | .pal i =>
    match pal[i]? with
    | some (r, g, b, a) => .rgba r g b a
    | none => .rgba 0 0 0 255

/-- `image.convert(mode)` for the two target modes the pipeline uses
(`"RGBA"` at src/app.py:90, `"RGB"` at src/app.py:94); other targets are
never requested and leave the image unchanged. -/
def PILImage.convert (img : PILImage) : Mode → PILImage
  | .RGB => ⟨.RGB, img.width, img.height, img.pixels.map (pixelToRGB img.palette), []⟩
  | .RGBA => ⟨.RGBA, img.width, img.height, img.pixels.map (pixelToRGBA img.palette), []⟩
  | _ => img

/-- `image.split()[-1]`: the last band of the image (the alpha band for
`RGBA`, the only use at src/app.py:91). -/
def PILImage.lastBand (img : PILImage) : List Nat :=
  img.pixels.map fun p =>
    match p with
    | .rgb _ _ b => b
    | .rgba _ _ _ a => a
    | .la _ a => a
    | .lum l => l
    | .pal i => i

/-- Pillow's `MULDIV255` rounding step used by paste blending. -/
def muldiv255 (a b : Nat) : Nat :=
  let tmp := a * b + 128
  (tmp + tmp / 256) / 256

/-- Pillow's `BLEND` of one channel: destination weighted by `255 - mask`,
source by `mask`. -/
def blendChan (maskv d s : Nat) : Nat :=
  muldiv255 d (255 - maskv) + muldiv255 s maskv

/-- Blend two pixels under a mask value (used with RGB pixels only). -/
def blendPixel (maskv : Nat) (d s : Pixel) : Pixel :=
  match d, s with
  | .rgb dr dg db, .rgb sr sg sb =>
    .rgb (blendChan maskv dr sr) (blendChan maskv dg sg) (blendChan maskv db sb)
  | _, _ => s

/-- `Image.new("RGB", (w, h), (r, g, b))` (src/app.py:88). -/
def Image.new (w h : Nat) (color : Nat × Nat × Nat) : PILImage :=
  ⟨.RGB, w, h, List.replicate (w * h) (.rgb color.1 color.2.1 color.2.2), []⟩

/-- `dest.paste(src, mask)` with the whole-canvas box the pipeline uses
(source and destination share dimensions): the source is first converted
to the destination mode; without a mask it replaces the destination
pixels, with an `L` mask each channel is blended by the mask value. -/
def PILImage.paste (dest src : PILImage) (mask : Option (List Nat)) : PILImage :=
  let srcConv := if src.mode = dest.mode then src else src.convert dest.mode
  match mask with
  | none => { dest with pixels := srcConv.pixels }
  | some m =>
    { dest with
      pixels := List.zipWith (fun dp sm => blendPixel sm.2 dp sm.1)
        dest.pixels (srcConv.pixels.zip m) }

/-- The color-mode normalization branch of the conversion loop
(src/app.py:86-94), verbatim: for the JPG target and a mode in
`("RGBA", "LA", "P")`, build a white RGB canvas of the image's size,
promote `P` to `RGBA`, and paste the image onto the canvas with the
alpha band as mask only when the (possibly promoted) mode is `RGBA`;
for any other mode under JPG, a plain `convert("RGB")`; under PNG the
image is untouched. -/
def normalizeForSave (outputFormat : OutputFormat) (image : PILImage) : PILImage :=
  if outputFormat = .JPG ∧ (image.mode = .RGBA ∨ image.mode = .LA ∨ image.mode = .P) then
    let rgbImage := Image.new image.width image.height (255, 255, 255)
    let image := if image.mode = .P then image.convert .RGBA else image
    let rgbImage := rgbImage.paste image
      (if image.mode = .RGBA then some image.lastBand else none)
    rgbImage
  else if outputFormat = .JPG then
    image.convert .RGB
  else
    image

/-- The alpha channel of an image, as the spec's words read it: the `a`
component of direct-alpha and luminance-alpha pixels, opaque elsewhere. -/
def alphaBand (img : PILImage) : List Nat :=
  img.pixels.map fun p =>
    match p with
    | .rgba _ _ _ a => a
    | .la _ a => a
    | _ => 255

/-- Formalisation of the SPEC's stated JPG normalization policy (§4.1
step 2), written from the spec's words for comparison with the code's
`normalizeForSave`: if the mode indicates transparency capability
(`RGBA`, `LA`, `P`), promote palette images to `RGBA`, synthesize an
opaque-white canvas of identical dimensions, and composite the source
onto it using the source's own alpha channel as the blend mask;
otherwise a plain conversion to `RGB`. -/
def specNormalizeJPG (image : PILImage) : PILImage :=
  if image.mode = .RGBA ∨ image.mode = .LA ∨ image.mode = .P then
    let image := if image.mode = .P then image.convert .RGBA else image
    let canvas := Image.new image.width image.height (255, 255, 255)
    canvas.paste image (some (alphaBand image))
  else
    image.convert .RGB

/-- The index of the last occurrence of `c` in the character list, if any
(Python's `str.rfind`). -/
def lastIndexOf (c : Char) : List Char → Option Nat
  | [] => none
  | x :: xs =>
    match lastIndexOf c xs with
    | some i => some (i + 1)
    | none => if x = c then some 0 else none

/-- `pathlib`'s stem rule on one path component: drop the part from the
last dot on, but only when that dot is neither the first nor the last
character. -/
def stemChars (cs : List Char) : List Char :=
  match lastIndexOf '.' cs with
  | some i => if 0 < i ∧ i < cs.length - 1 then cs.take i else cs
  | none => cs

/-- The final path component (the part after the last `/`). -/
def finalComponent (cs : List Char) : List Char :=
  match lastIndexOf '/' cs with
  | some i => cs.drop (i + 1)
  | none => cs

/-- `Path(name).stem` (src/app.py:97). -/
def stem (name : String) : String :=
  (stemChars (finalComponent name.toList)).asString

/-- The output filename derivation (src/app.py:96-99): the stem of the
uploaded name, a dot, and `png` or `jpg` by output format. -/
def outputFilename (outputFormat : OutputFormat) (name : String) : String :=
  stem name ++ "." ++ (if outputFormat = .PNG then "png" else "jpg")

/-- One uploaded file: original filename and raw bytes. -/
structure SourceItem where
  name : String
  bytes : List Nat
deriving DecidableEq

/-- One successful conversion: archive entry name and encoded bytes. -/
structure ConvertedItem where
  outputName : String
  bytes : List Nat
deriving DecidableEq

/-- The parameters the pipeline hands to `image.save`
(src/app.py:102-106): format string, optional quality, optimize flag. -/
structure SaveParams where
  format : String
  quality : Option Nat
  optimize : Bool
deriving DecidableEq

/-- The two `image.save` calls (src/app.py:103-106): the PNG branch passes
`format="PNG", optimize=True` and no quality; the JPG branch passes
`format="JPEG", quality=quality, optimize=True`. -/
def saveParams (outputFormat : OutputFormat) (quality : Option Nat) : SaveParams :=
  if outputFormat = .PNG then ⟨"PNG", none, true⟩
  else ⟨"JPEG", quality, true⟩

/-- The decoder collaborator (`Image.open`, src/app.py:83): raw bytes to a
pixel image, or a decode failure message. -/
def Decoder : Type := List Nat → Except String PILImage

/-- The encoder collaborator (`image.save`, src/app.py:102-106): a pixel
image plus save parameters to encoded bytes, or an encode failure
message. -/
def Encoder : Type := PILImage → SaveParams → Except String (List Nat)

/-- The body of the conversion loop for one item (src/app.py:73-108):
decode, normalize the color mode, derive the output filename, encode.
Any failure short-circuits with the failing step's message, exactly as
the enclosing `try` does. -/
def processItem (decode : Decoder) (encode : Encoder) (outputFormat : OutputFormat)
    (quality : Option Nat) (item : SourceItem) : Except String ConvertedItem :=
  match decode item.bytes with
  | .error e => .error e
  | .ok image =>
    let image := normalizeForSave outputFormat image
    let outputName := outputFilename outputFormat item.name
    match encode image (saveParams outputFormat quality) with
    | .error e => .error e
    | .ok bs => .ok ⟨outputName, bs⟩

/-- The conversion loop (src/app.py:66-112): each item appends either one
converted item or one error string `f"{name}: {message}"`, both lists in
input order. -/
def runBatch (decode : Decoder) (encode : Encoder) (outputFormat : OutputFormat)
    (quality : Option Nat) : List SourceItem → List ConvertedItem × List String
  | [] => ([], [])
  | item :: rest =>
    let r := runBatch decode encode outputFormat quality rest
    match processItem decode encode outputFormat quality item with
    | .ok c => (c :: r.1, r.2)
    | .error e => (r.1, (item.name ++ ": " ++ e) :: r.2)

/-- Compression methods of the archiver collaborator; the pipeline always
uses `zipfile.ZIP_DEFLATED` (src/app.py:123). -/
inductive CompressionMethod
  | stored
  | deflated
deriving DecidableEq

/-- The assembled archive: compression method and `(entry name, bytes)`
entries in the order they were written. -/
structure ZipArchive where
  method : CompressionMethod
  entries : List (String × List Nat)
deriving DecidableEq

/-- The outcome one invocation hands to the presentation layer
(session state, src/app.py:130-144): the zip buffer when one was
produced, the converted count, the error strings, and the
`conversion_complete` flag. -/
structure ArchiveResult where
  zipData : Option ZipArchive
  entryCount : Nat
  errors : List String
  conversionComplete : Bool
deriving DecidableEq

/-- The whole pipeline invocation (src/app.py:66-144): run the loop; if no
file converted, no archive is produced and the invocation reports failure
(src/app.py:142-144); otherwise every converted item is written into one
deflate-compressed zip in input order and the invocation reports success
with the converted count. -/
def convert (decode : Decoder) (encode : Encoder) (outputFormat : OutputFormat)
    (quality : Option Nat) (sources : List SourceItem) : ArchiveResult :=
  let r := runBatch decode encode outputFormat quality sources
  if r.1 = [] then
    ⟨none, 0, r.2, false⟩
  else
    ⟨some ⟨.deflated, r.1.map fun c => (c.outputName, c.bytes)⟩, r.1.length, r.2, true⟩

/-- Reading an entry back from the archive: `zipfile` keeps a
name-to-entry map that successive `write` calls overwrite, so a read
returns the LAST entry written under the name. -/
def nameToInfo (entries : List (String × List Nat)) (k : String) : Option (List Nat) :=
  match entries with
  | [] => none
  | e :: rest =>
    match nameToInfo rest k with
    | some b => some b
    | none => if e.1 = k then some e.2 else none

/-! Concrete collaborator instances and sample images, used to exercise the
pipeline on closed inputs. -/

/-- A decoder that rejects every input, as Pillow does on corrupt bytes. -/
def badDecoder : Decoder := fun _ => .error "cannot identify image file"

/-- A decoder that accepts every input as a fixed opaque 1x1 RGB image. -/
def okDecoder : Decoder := fun _ => .ok ⟨.RGB, 1, 1, [.rgb 1 2 3], []⟩

/-- An encoder that encodes every image as the single byte `1`. -/
def okEncoder : Encoder := fun _ _ => .ok [1]

/-- A decoder mapping the first input byte to a 1x1 image's red channel. -/
def pixelDecoder : Decoder := fun bs => .ok ⟨.RGB, 1, 1, [.rgb (bs.headD 0) 0 0], []⟩

/-- An encoder whose output bytes are the red channels of the image. -/
def pixelEncoder : Encoder := fun img _ =>
  .ok (img.pixels.map fun p => match p with | .rgb r _ _ => r | _ => 0)

/-- A decoder that fails on the byte sequence `[9]` and decodes anything
else as a fixed opaque image. -/
def mixedDecoder : Decoder := fun bs =>
  if bs = [9] then .error "cannot identify image file" else .ok ⟨.RGB, 1, 1, [.rgb 1 2 3], []⟩

/-- A 1x1 luminance-alpha image whose single pixel is fully transparent
black. -/
def laSample : PILImage := ⟨.LA, 1, 1, [.la 0 0], []⟩

/-- A 2x1 direct-alpha image: one fully transparent pixel, one opaque. -/
def rgbaSample : PILImage := ⟨.RGBA, 2, 1, [.rgba 10 20 30 0, .rgba 10 20 30 255], []⟩

/-! Helper lemmas about the batch loop. -/

/-- Both result lists of the conversion loop together account for every
source item. -/
theorem runBatch_length (decode : Decoder) (encode : Encoder)
    (outputFormat : OutputFormat) (quality : Option Nat) :
    ∀ sources : List SourceItem,
      (runBatch decode encode outputFormat quality sources).1.length +
        (runBatch decode encode outputFormat quality sources).2.length = sources.length
  | [] => rfl
  | item :: rest => by
    have ih := runBatch_length decode encode outputFormat quality rest
    simp only [runBatch]
    cases processItem decode encode outputFormat quality item <;> simp <;> omega

/-- The conversion loop distributes over list concatenation. -/
theorem runBatch_append (decode : Decoder) (encode : Encoder)
    (outputFormat : OutputFormat) (quality : Option Nat) :
    ∀ xs ys : List SourceItem,
      runBatch decode encode outputFormat quality (xs ++ ys) =
        ((runBatch decode encode outputFormat quality xs).1 ++
          (runBatch decode encode outputFormat quality ys).1,
         (runBatch decode encode outputFormat quality xs).2 ++
          (runBatch decode encode outputFormat quality ys).2)
  | [], ys => by simp [runBatch]
  | item :: xs, ys => by
    have ih := runBatch_append decode encode outputFormat quality xs ys
    simp only [List.cons_append, runBatch]
    cases processItem decode encode outputFormat quality item <;> simp [ih]

/-- The errors field of the invocation result is the loop's error list,
in both the archive and the empty-batch branch. -/
theorem convert_errors (decode : Decoder) (encode : Encoder)
    (outputFormat : OutputFormat) (quality : Option Nat) (sources : List SourceItem) :
    (convert decode encode outputFormat quality sources).errors =
      (runBatch decode encode outputFormat quality sources).2 := by
  by_cases hz : (runBatch decode encode outputFormat quality sources).1 = [] <;>
    simp [convert, hz]

/-- C1. Each source item yields exactly one outcome, so the entry count
plus the length of the error list equals the number of source items, for
every invocation on a non-empty input sequence. -/
theorem converted_plus_errors_eq_sources (decode : Decoder) (encode : Encoder)
    (outputFormat : OutputFormat) (quality : Option Nat) (sources : List SourceItem)
    (_hne : sources ≠ []) :
    (convert decode encode outputFormat quality sources).entryCount +
      (convert decode encode outputFormat quality sources).errors.length =
      sources.length := by
  have h := runBatch_length decode encode outputFormat quality sources
  by_cases hz : (runBatch decode encode outputFormat quality sources).1 = []
  · rw [hz, List.length_nil] at h
    simp [convert, hz]
    omega
  · simp [convert, hz]
    omega

/-- Witness for C1: a single corrupt upload yields zero entries and one
error, summing to the input length. -/
theorem converted_plus_errors_eq_sources_witness :
    ([(⟨"a.heic", [0]⟩ : SourceItem)] ≠ []) ∧
    (convert badDecoder okEncoder .PNG none [⟨"a.heic", [0]⟩]).entryCount +
      (convert badDecoder okEncoder .PNG none [⟨"a.heic", [0]⟩]).errors.length = 1 :=
  ⟨by simp, converted_plus_errors_eq_sources badDecoder okEncoder .PNG none _ (by simp)⟩

/-- C3. Under the PNG target no color-mode normalization is applied: the
decoded image reaches the encoder untouched, transparency included. -/
theorem png_no_normalization (image : PILImage) :
    normalizeForSave .PNG image = image := rfl

/-- C5. The PNG save call passes `format="PNG"`, no quality, and
`optimize=True` — any configured quality is ignored; the JPG save call
passes `format="JPEG"`, the configured quality, and `optimize=True`. -/
theorem save_parameters :
    (∀ quality : Option Nat, saveParams .PNG quality = ⟨"PNG", none, true⟩) ∧
    (∀ quality : Option Nat, saveParams .JPG quality = ⟨"JPEG", quality, true⟩) :=
  ⟨fun _ => rfl, fun _ => rfl⟩

/-- After promotion to `RGBA` every pixel carries an explicit alpha, so
the last band of the promoted pixel list is exactly its alpha channel. -/
theorem lastBand_of_promoted (m : Mode) (w h : Nat)
    (pal pal2 : List (Nat × Nat × Nat × Nat)) (ps : List Pixel) :
    PILImage.lastBand ⟨m, w, h, ps.map (pixelToRGBA pal), pal2⟩ =
      alphaBand ⟨m, w, h, ps.map (pixelToRGBA pal), pal2⟩ := by
  simp only [PILImage.lastBand, alphaBand, List.map_map]
  apply List.map_congr_left
  intro p _
  cases p with
  | pal i =>
    cases h : pal[i]? with
    | none => simp [Function.comp, pixelToRGBA, h]
    | some v =>
      obtain ⟨r, g, b, a⟩ := v
      simp [Function.comp, pixelToRGBA, h]
  | _ => simp [Function.comp, pixelToRGBA]

/-- On a well-formed `RGBA` image the last band is the alpha channel. -/
theorem lastBand_eq_alphaBand_of_RGBA (img : PILImage) (hwf : img.wf)
    (hm : img.mode = .RGBA) :
    img.lastBand = alphaBand img := by
  simp only [PILImage.lastBand, alphaBand]
  apply List.map_congr_left
  intro p hp
  have h := hwf p hp
  rw [hm] at h
  cases p <;> simp [Pixel.matchesMode] at h ⊢

/-- C2 counterexample: on a luminance-alpha (`LA`) image the pipeline does
NOT composite through the alpha channel — the paste at src/app.py:91
passes `mask=None` unless the mode is `RGBA` — so a fully transparent
black `LA` pixel comes out black, while the spec's stated policy would
make it opaque white. -/
theorem normalize_jpg_la_counterexample :
    normalizeForSave .JPG laSample ≠ specNormalizeJPG laSample ∧
    (normalizeForSave .JPG laSample).pixels = [.rgb 0 0 0] ∧
    (specNormalizeJPG laSample).pixels = [.rgb 255 255 255] :=
  ⟨by decide, by decide, by decide⟩

/-- C2 amended. Under the JPG target, for a well-formed decoded image:
`RGBA` and `P` modes are composited onto a fresh opaque-white canvas of
identical dimensions using the alpha channel as blend mask (`P` promoted
to `RGBA` first), exactly as the spec states; an `LA` image, however, is
pasted onto the white canvas with no mask, which replaces the canvas with
the image's plain `RGB` conversion and ignores its alpha channel; any
mode with no transparency capability gets a plain conversion to `RGB`
with no synthesized background. -/
theorem normalize_jpg_by_mode (img : PILImage) (hwf : img.wf) :
    ((img.mode = .RGBA ∨ img.mode = .P) →
      normalizeForSave .JPG img = specNormalizeJPG img) ∧
    (img.mode = .LA →
      normalizeForSave .JPG img =
        (Image.new img.width img.height (255, 255, 255)).paste img none ∧
      (normalizeForSave .JPG img).pixels = (img.convert .RGB).pixels) ∧
    ((img.mode ≠ .RGBA ∧ img.mode ≠ .LA ∧ img.mode ≠ .P) →
      normalizeForSave .JPG img = img.convert .RGB) := by
  refine ⟨?_, ?_, ?_⟩
  · rintro (hm | hm)
    · simp [normalizeForSave, specNormalizeJPG, hm,
        lastBand_eq_alphaBand_of_RGBA img hwf hm]
    · simp [normalizeForSave, specNormalizeJPG, hm, lastBand_of_promoted,
        PILImage.convert]
  · intro hm
    refine ⟨by simp [normalizeForSave, hm], ?_⟩
    simp [normalizeForSave, hm, PILImage.paste, Image.new, PILImage.convert]
  · rintro ⟨h1, h2, h3⟩
    simp [normalizeForSave, h1, h2, h3]

/-- Witness for C2 amended: a concrete `RGBA` image with one transparent
and one opaque pixel is normalized exactly as the spec's policy says. -/
theorem normalize_jpg_by_mode_witness :
    rgbaSample.wf ∧ rgbaSample.mode = .RGBA ∧
    normalizeForSave .JPG rgbaSample = specNormalizeJPG rgbaSample :=
  ⟨by decide, rfl, (normalize_jpg_by_mode rgbaSample (by decide)).1 (Or.inl rfl)⟩

/-- A successfully processed item is named by the output filename
derivation applied to its source name. -/
theorem processItem_ok_name (decode : Decoder) (encode : Encoder)
    (outputFormat : OutputFormat) (quality : Option Nat) (item : SourceItem)
    (c : ConvertedItem)
    (h : processItem decode encode outputFormat quality item = .ok c) :
    c.outputName = outputFilename outputFormat item.name := by
  unfold processItem at h
  cases hd : decode item.bytes with
  | error e => rw [hd] at h; cases h
  | ok image =>
    rw [hd] at h
    cases he : encode (normalizeForSave outputFormat image)
        (saveParams outputFormat quality) with
    | error e => simp [he] at h
    | ok bs =>
      simp [he] at h
      rw [← h]

/-- The loop's success list is the in-order filtering of the per-item
results over the sources. -/
theorem runBatch_fst_eq_filterMap (decode : Decoder) (encode : Encoder)
    (outputFormat : OutputFormat) (quality : Option Nat) :
    ∀ sources : List SourceItem,
      (runBatch decode encode outputFormat quality sources).1 =
        sources.filterMap
          (fun it => (processItem decode encode outputFormat quality it).toOption)
  | [] => rfl
  | item :: rest => by
    have ih := runBatch_fst_eq_filterMap decode encode outputFormat quality rest
    simp only [runBatch, List.filterMap_cons]
    cases processItem decode encode outputFormat quality item <;>
      simp [Except.toOption, ih]

/-- Every converted item in the loop's success list arises from some
source item whose processing succeeded. -/
theorem runBatch_mem_fst (decode : Decoder) (encode : Encoder)
    (outputFormat : OutputFormat) (quality : Option Nat) (sources : List SourceItem)
    (c : ConvertedItem)
    (hc : c ∈ (runBatch decode encode outputFormat quality sources).1) :
    ∃ item ∈ sources, processItem decode encode outputFormat quality item = .ok c := by
  rw [runBatch_fst_eq_filterMap] at hc
  obtain ⟨item, hmem, hit⟩ := List.mem_filterMap.mp hc
  refine ⟨item, hmem, ?_⟩
  cases h : processItem decode encode outputFormat quality item <;>
    simp [h, Except.toOption] at hit
  rw [hit]

/-- Every error string in the loop's error list is the failing item's name,
the separator, and the failure message. -/
theorem runBatch_snd_mem (decode : Decoder) (encode : Encoder)
    (outputFormat : OutputFormat) (quality : Option Nat) :
    ∀ sources : List SourceItem, ∀ s ∈ (runBatch decode encode outputFormat quality sources).2,
      ∃ item ∈ sources, ∃ msg,
        processItem decode encode outputFormat quality item = .error msg ∧
        s = item.name ++ ": " ++ msg
  | [], s, hs => by cases hs
  | item :: rest, s, hs => by
    have ih := runBatch_snd_mem decode encode outputFormat quality rest
    simp only [runBatch] at hs
    cases h : processItem decode encode outputFormat quality item with
    | ok c =>
      rw [h] at hs
      obtain ⟨it, hmem, hrest⟩ := ih s hs
      exact ⟨it, List.mem_cons_of_mem _ hmem, hrest⟩
    | error e =>
      rw [h] at hs
      rcases List.mem_cons.mp hs with heq | htl
      · exact ⟨item, List.mem_cons_self _ _, e, h, heq⟩
      · obtain ⟨it, hmem, hrest⟩ := ih s htl
        exact ⟨it, List.mem_cons_of_mem _ hmem, hrest⟩

/-- C4. Each archive entry is named by stripping the source filename's
extension (pathlib's stem) and appending `.png` or `.jpg` by the
configured output format, so every entry name ends in the extension that
matches the format, whatever the source's original extension or case. -/
theorem archive_entry_names (decode : Decoder) (encode : Encoder)
    (outputFormat : OutputFormat) (quality : Option Nat) (sources : List SourceItem)
    (zip : ZipArchive)
    (hzip : (convert decode encode outputFormat quality sources).zipData = some zip) :
    ∀ e ∈ zip.entries, ∃ item ∈ sources,
      e.1 = stem item.name ++ "." ++ (if outputFormat = .PNG then "png" else "jpg") ∧
      e.1 = stem item.name ++ (if outputFormat = .PNG then ".png" else ".jpg") := by
  intro e he
  by_cases hz : (runBatch decode encode outputFormat quality sources).1 = []
  · simp [convert, hz] at hzip
  · simp only [convert, if_neg hz] at hzip
    obtain rfl : zip =
        ⟨.deflated, (runBatch decode encode outputFormat quality sources).1.map
          fun c => (c.outputName, c.bytes)⟩ := by
      exact (Option.some_injective _ hzip).symm
    obtain ⟨c, hc, rfl⟩ := List.mem_map.mp he
    obtain ⟨item, hmem, hok⟩ :=
      runBatch_mem_fst decode encode outputFormat quality sources c hc
    have hname := processItem_ok_name decode encode outputFormat quality item c hok
    refine ⟨item, hmem, hname, ?_⟩
    rw [hname]
    unfold outputFilename
    cases outputFormat <;> simp <;> (rw [String.append_assoc]; rfl)

/-- Witness for C4: an uppercase `.HEIC` source converted to PNG yields the
entry name `photo.png`. -/
theorem archive_entry_names_witness :
    (convert okDecoder okEncoder .PNG none [⟨"photo.HEIC", [0]⟩]).zipData =
      some ⟨.deflated, [("photo.png", [1])]⟩ ∧
    ∃ item ∈ [(⟨"photo.HEIC", [0]⟩ : SourceItem)],
      ("photo.png", ([1] : List Nat)).1 =
        stem item.name ++ "." ++ (if OutputFormat.PNG = .PNG then "png" else "jpg") ∧
      ("photo.png", ([1] : List Nat)).1 =
        stem item.name ++ (if OutputFormat.PNG = .PNG then ".png" else ".jpg") :=
  ⟨by decide,
    archive_entry_names okDecoder okEncoder .PNG none [⟨"photo.HEIC", [0]⟩]
      ⟨.deflated, [("photo.png", [1])]⟩ (by decide)
      ("photo.png", [1]) (by simp)⟩

/-- C6. A per-item failure is isolated: the failing item contributes
exactly one error string carrying the failure message, contributes no
converted item, the loop continues through the remaining items
undisturbed, and the accumulated errors are returned alongside the
successes in the invocation result. -/
theorem per_item_error_isolated (decode : Decoder) (encode : Encoder)
    (outputFormat : OutputFormat) (quality : Option Nat)
    (xs ys : List SourceItem) (bad : SourceItem) (e : String)
    (hbad : processItem decode encode outputFormat quality bad = .error e) :
    runBatch decode encode outputFormat quality (xs ++ bad :: ys) =
      ((runBatch decode encode outputFormat quality xs).1 ++
        (runBatch decode encode outputFormat quality ys).1,
       (runBatch decode encode outputFormat quality xs).2 ++
        (bad.name ++ ": " ++ e) :: (runBatch decode encode outputFormat quality ys).2) ∧
    (convert decode encode outputFormat quality (xs ++ bad :: ys)).errors =
      (runBatch decode encode outputFormat quality xs).2 ++
        (bad.name ++ ": " ++ e) :: (runBatch decode encode outputFormat quality ys).2 := by
  have hmid : runBatch decode encode outputFormat quality (bad :: ys) =
      ((runBatch decode encode outputFormat quality ys).1,
       (bad.name ++ ": " ++ e) :: (runBatch decode encode outputFormat quality ys).2) := by
    simp [runBatch, hbad]
  have happ := runBatch_append decode encode outputFormat quality xs (bad :: ys)
  rw [hmid] at happ
  refine ⟨happ, ?_⟩
  rw [convert_errors, happ]

/-- Witness for C6: in a three-file batch whose middle file is corrupt,
the two good files convert and the corrupt one contributes exactly one
error string in between. -/
theorem per_item_error_isolated_witness :
    processItem mixedDecoder okEncoder .PNG none ⟨"b.heic", [9]⟩ =
      .error "cannot identify image file" ∧
    runBatch mixedDecoder okEncoder .PNG none
        ([⟨"a.heic", [1]⟩] ++ ⟨"b.heic", [9]⟩ :: [⟨"c.heic", [2]⟩]) =
      ((runBatch mixedDecoder okEncoder .PNG none [⟨"a.heic", [1]⟩]).1 ++
        (runBatch mixedDecoder okEncoder .PNG none [⟨"c.heic", [2]⟩]).1,
       (runBatch mixedDecoder okEncoder .PNG none [⟨"a.heic", [1]⟩]).2 ++
        ("b.heic" ++ ": " ++ "cannot identify image file") ::
          (runBatch mixedDecoder okEncoder .PNG none [⟨"c.heic", [2]⟩]).2) :=
  ⟨rfl,
    (per_item_error_isolated mixedDecoder okEncoder .PNG none
      [⟨"a.heic", [1]⟩] [⟨"c.heic", [2]⟩] ⟨"b.heic", [9]⟩
      "cannot identify image file" rfl).1⟩

/-- C7. When zero items convert, the invocation produces no archive: the
result carries no zip buffer, an entry count of zero, the accumulated
errors, and the failure flag; a successful invocation instead carries a
buffer and the success flag, so the two outcomes are distinguishable. -/
theorem empty_batch_failure (decode : Decoder) (encode : Encoder)
    (outputFormat : OutputFormat) (quality : Option Nat) (sources : List SourceItem) :
    ((runBatch decode encode outputFormat quality sources).1 = [] →
      convert decode encode outputFormat quality sources =
        ⟨none, 0, (runBatch decode encode outputFormat quality sources).2, false⟩) ∧
    ((runBatch decode encode outputFormat quality sources).1 ≠ [] →
      (convert decode encode outputFormat quality sources).zipData ≠ none ∧
      (convert decode encode outputFormat quality sources).conversionComplete = true) := by
  constructor
  · intro hz
    simp [convert, hz]
  · intro hz
    simp [convert, hz]

/-- Witness for C7: a batch whose only file is corrupt produces no
archive, zero entries, one error, and the failure flag. -/
theorem empty_batch_failure_witness :
    (runBatch badDecoder okEncoder .PNG none [⟨"a.heic", [0]⟩]).1 = [] ∧
    convert badDecoder okEncoder .PNG none [⟨"a.heic", [0]⟩] =
      ⟨none, 0, (runBatch badDecoder okEncoder .PNG none [⟨"a.heic", [0]⟩]).2, false⟩ :=
  ⟨rfl, (empty_batch_failure badDecoder okEncoder .PNG none [⟨"a.heic", [0]⟩]).1 rfl⟩

/-- C8. When at least one item converted, the invocation assembles one
deflate-compressed archive holding every converted item as an entry named
by its output name, in input order, and the entry count equals the number
of entries written. -/
theorem archive_assembly (decode : Decoder) (encode : Encoder)
    (outputFormat : OutputFormat) (quality : Option Nat) (sources : List SourceItem)
    (hne : (runBatch decode encode outputFormat quality sources).1 ≠ []) :
    (convert decode encode outputFormat quality sources).zipData =
      some ⟨.deflated, (runBatch decode encode outputFormat quality sources).1.map
        fun c => (c.outputName, c.bytes)⟩ ∧
    (convert decode encode outputFormat quality sources).entryCount =
      ((runBatch decode encode outputFormat quality sources).1.map
        fun c => (c.outputName, c.bytes)).length ∧
    (runBatch decode encode outputFormat quality sources).1 =
      sources.filterMap
        (fun it => (processItem decode encode outputFormat quality it).toOption) := by
  refine ⟨?_, ?_, runBatch_fst_eq_filterMap decode encode outputFormat quality sources⟩
  · simp [convert, hne]
  · simp [convert, hne]

/-- Witness for C8: a two-file batch yields a deflated archive with its
two entries in input order and an entry count of two. -/
theorem archive_assembly_witness :
    (runBatch pixelDecoder pixelEncoder .PNG none
      [⟨"a.heic", [1]⟩, ⟨"b.heic", [2]⟩]).1 ≠ [] ∧
    (convert pixelDecoder pixelEncoder .PNG none
        [⟨"a.heic", [1]⟩, ⟨"b.heic", [2]⟩]).zipData =
      some ⟨.deflated, (runBatch pixelDecoder pixelEncoder .PNG none
        [⟨"a.heic", [1]⟩, ⟨"b.heic", [2]⟩]).1.map fun c => (c.outputName, c.bytes)⟩ :=
  ⟨by decide,
    (archive_assembly pixelDecoder pixelEncoder .PNG none
      [⟨"a.heic", [1]⟩, ⟨"b.heic", [2]⟩] (by decide)).1⟩

/-- C10. Every recorded per-item error is the single flat string formed
from the source filename, the literal separator `": "`, and the failure's
message — and that same flat string is what the error list handed to the
presentation layer contains. -/
theorem error_strings_flat (decode : Decoder) (encode : Encoder)
    (outputFormat : OutputFormat) (quality : Option Nat) (sources : List SourceItem)
    (s : String) (hs : s ∈ (convert decode encode outputFormat quality sources).errors) :
    ∃ item ∈ sources, ∃ msg,
      processItem decode encode outputFormat quality item = .error msg ∧
      s = item.name ++ ": " ++ msg := by
  rw [convert_errors] at hs
  exact runBatch_snd_mem decode encode outputFormat quality sources s hs

/-- Witness for C10: the corrupt upload `a.heic` is recorded as the flat
string `"a.heic: cannot identify image file"`. -/
theorem error_strings_flat_witness :
    ("a.heic: cannot identify image file" ∈
      (convert badDecoder okEncoder .PNG none [⟨"a.heic", [0]⟩]).errors) ∧
    ∃ item ∈ [(⟨"a.heic", [0]⟩ : SourceItem)], ∃ msg,
      processItem badDecoder okEncoder .PNG none item = .error msg ∧
      "a.heic: cannot identify image file" = item.name ++ ": " ++ msg :=
  ⟨by decide,
    error_strings_flat badDecoder okEncoder .PNG none [⟨"a.heic", [0]⟩]
      "a.heic: cannot identify image file" (by decide)⟩

/-- A name absent from every entry resolves to nothing. -/
theorem nameToInfo_eq_none (k : String) :
    ∀ entries : List (String × List Nat),
      (∀ e ∈ entries, e.1 ≠ k) → nameToInfo entries k = none
  | [], _ => rfl
  | e :: rest, h => by
    have hr := nameToInfo_eq_none k rest fun x hx => h x (List.mem_cons_of_mem _ hx)
    simp only [nameToInfo, hr]
    simp [h e (List.mem_cons_self _ _)]

/-- A resolution found in the tail wins over the head entry. -/
theorem nameToInfo_cons_of_some (k : String) (b : List Nat) (e : String × List Nat)
    (rest : List (String × List Nat)) (h : nameToInfo rest k = some b) :
    nameToInfo (e :: rest) k = some b := by
  simp [nameToInfo, h]

/-- A resolution found in the suffix wins over any earlier entries. -/
theorem nameToInfo_append_of_some (k : String) (b : List Nat)
    (as bs : List (String × List Nat)) (h : nameToInfo bs k = some b) :
    nameToInfo (as ++ bs) k = some b := by
  induction as with
  | nil => exact h
  | cons e as ih => exact nameToInfo_cons_of_some k b e _ ih

/-- C9. Two source items of one batch whose stems coincide after
extension-stripping keep colliding output names: no renaming happens,
both entries are written into the archive under the same name, neither
item produces an error, and a read of that name returns the later item's
bytes — the later entry silently overwrites the earlier one. -/
theorem colliding_names_overwrite (decode : Decoder) (encode : Encoder)
    (outputFormat : OutputFormat) (quality : Option Nat)
    (xs ys zs : List SourceItem) (x y : SourceItem) (cx cy : ConvertedItem)
    (hx : processItem decode encode outputFormat quality x = .ok cx)
    (hy : processItem decode encode outputFormat quality y = .ok cy)
    (hstem : stem x.name = stem y.name) :
    cx.outputName = cy.outputName ∧
    (runBatch decode encode outputFormat quality (xs ++ (x :: (ys ++ (y :: zs))))).1 =
      (runBatch decode encode outputFormat quality xs).1 ++
        (cx :: ((runBatch decode encode outputFormat quality ys).1 ++
          (cy :: (runBatch decode encode outputFormat quality zs).1))) ∧
    (runBatch decode encode outputFormat quality (xs ++ (x :: (ys ++ (y :: zs))))).2 =
      (runBatch decode encode outputFormat quality xs).2 ++
        ((runBatch decode encode outputFormat quality ys).2 ++
          (runBatch decode encode outputFormat quality zs).2) ∧
    ((∀ c ∈ (runBatch decode encode outputFormat quality zs).1,
        c.outputName ≠ cy.outputName) →
      nameToInfo
        ((runBatch decode encode outputFormat quality
            (xs ++ (x :: (ys ++ (y :: zs))))).1.map
          fun c => (c.outputName, c.bytes)) cy.outputName = some cy.bytes) := by
  have hname : cx.outputName = cy.outputName := by
    rw [processItem_ok_name decode encode outputFormat quality x cx hx,
      processItem_ok_name decode encode outputFormat quality y cy hy]
    unfold outputFilename
    rw [hstem]
  have hyz : runBatch decode encode outputFormat quality (y :: zs) =
      (cy :: (runBatch decode encode outputFormat quality zs).1,
       (runBatch decode encode outputFormat quality zs).2) := by
    simp [runBatch, hy]
  have hmid : runBatch decode encode outputFormat quality (x :: (ys ++ (y :: zs))) =
      (cx :: ((runBatch decode encode outputFormat quality ys).1 ++
          (cy :: (runBatch decode encode outputFormat quality zs).1)),
       (runBatch decode encode outputFormat quality ys).2 ++
        (runBatch decode encode outputFormat quality zs).2) := by
    have happ := runBatch_append decode encode outputFormat quality ys (y :: zs)
    rw [hyz] at happ
    simp [runBatch, happ, hx]
  have hfull := runBatch_append decode encode outputFormat quality xs
    (x :: (ys ++ (y :: zs)))
  rw [hmid] at hfull
  refine ⟨hname, by rw [hfull], by rw [hfull], ?_⟩
  intro hlast
  rw [hfull]
  simp only [List.map_append, List.map_cons]
  have hzs : nameToInfo
      ((runBatch decode encode outputFormat quality zs).1.map
        fun c => (c.outputName, c.bytes)) cy.outputName = none := by
    apply nameToInfo_eq_none
    intro e he
    obtain ⟨c, hc, rfl⟩ := List.mem_map.mp he
    exact hlast c hc
  have hcy : nameToInfo
      ((cy.outputName, cy.bytes) ::
        (runBatch decode encode outputFormat quality zs).1.map
          fun c => (c.outputName, c.bytes)) cy.outputName = some cy.bytes := by
    simp [nameToInfo, hzs]
  apply nameToInfo_append_of_some
  apply nameToInfo_cons_of_some
  exact nameToInfo_append_of_some _ _ _ _ hcy

/-- Witness for C9: `a.heic` and `a.heif` collide on the stem `a`; the
archive read of `a.png` returns the later file's bytes. -/
theorem colliding_names_overwrite_witness :
    stem "a.heic" = stem "a.heif" ∧
    nameToInfo
      ((runBatch pixelDecoder pixelEncoder .PNG none
        ([] ++ (⟨"a.heic", [1]⟩ :: ([] ++ (⟨"a.heif", [2]⟩ :: []))))).1.map
        fun c => (c.outputName, c.bytes))
      (ConvertedItem.outputName ⟨"a.png", [2]⟩) = some [2] :=
  ⟨by decide,
    (colliding_names_overwrite pixelDecoder pixelEncoder .PNG none [] [] []
      ⟨"a.heic", [1]⟩ ⟨"a.heif", [2]⟩ ⟨"a.png", [1]⟩ ⟨"a.png", [2]⟩
      rfl rfl (by decide)).2.2.2 (by simp [runBatch])⟩

end HeicConverter
